import Mathlib

/-!
Verification development for the Docker image builder (`main.go`).

The program is a sequential orchestration: for each input Dockerfile it
extracts tags from the leading comment block, archives the build context,
submits a build, parses the progress stream for intermediate image ids,
pushes each tag, inspects the final image, and optionally removes the
intermediate images.  We embed the pure parsing functions directly and the
engine-facing orchestration as a function of an oracle record describing
the outcome of each external call.
-/

namespace Builder

/-! ### String primitives

Go string operations are modeled over the character list of a `String`.
`strings.TrimSpace` trims Unicode whitespace from both ends; we model it
with `Char.isWhitespace`.  Go's `len` and slicing are byte based; every
string the program slices or measures at those points is ASCII, where
bytes and characters coincide, so we model them as character operations.
-/

/-- Model of Go `strings.TrimSpace` on the character list. -/
def trimChars (cs : List Char) : List Char :=
  ((cs.dropWhile Char.isWhitespace).reverse.dropWhile Char.isWhitespace).reverse

/-- Model of Go `strings.TrimSpace`. -/
def trim (s : String) : String := ⟨trimChars s.data⟩

/-- Model of Go slicing `s[n:]` (ASCII inputs: bytes = characters). -/
def strDrop (s : String) (n : Nat) : String := ⟨s.data.drop n⟩

/-- Model of Go `len(s)` (ASCII inputs: bytes = characters). -/
def strLength (s : String) : Nat := s.data.length

/-- Model of Go `strings.HasPrefix`. -/
def hasPre (s p : String) : Bool := decide (s.data.take p.data.length = p.data)

/-- Model of Go `strings.Split(s, ",")`: accumulator holds the current
field reversed. -/
def splitCommaAux : List Char → List Char → List String
  | acc, [] => [⟨acc.reverse⟩]
  | acc, c :: rest =>
    if c = ',' then ⟨acc.reverse⟩ :: splitCommaAux [] rest
    else splitCommaAux (c :: acc) rest

/-- Model of Go `strings.Split(s, ",")`. -/
def splitComma (s : String) : List String := splitCommaAux [] s.data

/-! ### Tag extraction (`tagsFor`, main.go lines 137-165)

The scanner loop of `tagsFor`, over the file's lines.  Each line is
trimmed; a blank or bare `#` line is skipped while no tag has been
collected and terminates the scan afterwards; any other line has its
first character dropped and the remainder trimmed and appended as a tag.
-/

/-- The tag a non-terminator line contributes: `strings.TrimSpace(line[1:])`
applied to the trimmed line. -/
def tagOfLine (l : String) : String := trim (strDrop (trim l) 1)

/-- The scanner loop of `tagsFor` with the accumulated tags. -/
def tagsLoop (acc : List String) : List String → List String
  | [] => acc
  | l :: rest =>
    let line := trim l
    if line = "" ∨ line = "#" then
      if acc = [] then tagsLoop acc rest else acc
    else
      tagsLoop (acc ++ [trim (strDrop line 1)]) rest

/-- Error produced when the scan collects no tags. -/
inductive TagsError where
  | noTagsFound
deriving DecidableEq

/-- `tagsFor` over the file's lines: run the scanner loop and fail with
`noTagsFound` when no tag was collected. -/
def tagsFor (lines : List String) : Except TagsError (List String) :=
  let tags := tagsLoop [] lines
  if tags = [] then Except.error TagsError.noTagsFound else Except.ok tags

/-! ### Progress stream parsing (`writeResponse`, main.go lines 221-243)

`writeResponse` reads decoded `stream` fields line by line, echoes each to
the writer, and records the text after the marker `" ---> "` as an image
id when its trimmed form has length 12.
-/

/-- The intermediate-image marker. -/
def buildMarker : String := " ---> "

/-- One step of the loop body of `writeResponse`: the ids contributed by a
single decoded stream line. -/
def idsOfLine (s : String) : List String :=
  if hasPre s buildMarker then
    let id := trim (strDrop s (strLength buildMarker))
    if strLength id = 12 then [id] else []
  else []

/-- The loop of `writeResponse` over the decoded stream lines, returning
the collected ids and the concatenated text echoed to the writer. -/
def writeResponseGo : List String → List String × String
  | [] => ([], "")
  | s :: rest =>
    let r := writeResponseGo rest
    (idsOfLine s ++ r.1, s ++ r.2)

/-- The ids collected by `writeResponse`. -/
def writeResponseIds (lines : List String) : List String :=
  (writeResponseGo lines).1

/-- Declarative form following the specification text: an id is recorded
exactly for a line carrying the marker whose trimmed remainder is exactly
12 characters, in stream order. -/
def specStreamId (s : String) : Option String :=
  if hasPre s buildMarker ∧ strLength (trim (strDrop s (strLength buildMarker))) = 12
  then some (trim (strDrop s (strLength buildMarker)))
  else none

/-! ### Cleanup loop (main.go lines 359-370)

`for i := len(ids) - 1; i > 0; i--` removes `ids[i]` with force; a failed
removal is logged and the loop continues.  `cleanupFrom rm ids i` runs the
loop body for indices `i, i-1, ..., 1` and returns the ordered list of
attempted removals together with the ids whose removal failed (logged). -/

/-- The cleanup loop from index `i` down to (and excluding) index 0. -/
def cleanupFrom (rm : String → Bool) (ids : List String) : Nat → List String × List String
  | 0 => ([], [])
  | i + 1 =>
    (ids.getD (i + 1) "" :: (cleanupFrom rm ids i).1,
      (if rm (ids.getD (i + 1) "") then [] else [ids.getD (i + 1) ""]) ++ (cleanupFrom rm ids i).2)

/-- The whole cleanup pass: loop from `len(ids) - 1` down to 1. -/
def cleanupRun (rm : String → Bool) (ids : List String) : List String × List String :=
  cleanupFrom rm ids (ids.length - 1)

/-! ### Credential encoding (`authConfig.Value`, main.go lines 55-61;
`newAuthConfig`, lines 108-117)

`Value` JSON-marshals the embedded engine auth structure and base64-URL
encodes the bytes.  The auth structure and its serialization live in the
engine client library; we model them concretely: the struct fields in
declaration order with `omitempty` semantics, the standard JSON encoder's
escaping (HTML escaping on, as Go defaults), UTF-8 bytes, and the URL
base64 alphabet with padding. -/

/-- The engine auth structure populated by `newAuthConfig`. -/
structure AuthConfig where
  username : String
  password : String
  auth : String
  email : String
  serverAddress : String
  identityToken : String
  registryToken : String
deriving DecidableEq

/-- `newAuthConfig`: fills username, password, email, auth token and
registry address; the remaining fields stay empty. -/
def newAuthConfig (username password email auth registry : String) : AuthConfig :=
  { username := username
    password := password
    auth := auth
    email := email
    serverAddress := registry
    identityToken := ""
    registryToken := "" }

/-- Lowercase hexadecimal digit. -/
def hexDigit (n : Nat) : Char :=
  if n < 10 then Char.ofNat (48 + n) else Char.ofNat (87 + n % 16)

/-- Escaping of one character by Go's standard JSON encoder (HTML escaping
enabled, its default). -/
def jsonEscapeChar (c : Char) : String :=
  if c = '"' then "\\\""
  else if c = '\\' then "\\\\"
  else if c = '\n' then "\\n"
  else if c = '\r' then "\\r"
  else if c = '\t' then "\\t"
  else if c = '<' then "\\u003c"
  else if c = '>' then "\\u003e"
  else if c = '&' then "\\u0026"
  else if c.toNat < 32 then
    String.mk ['\\', 'u', '0', '0', hexDigit (c.toNat / 16), hexDigit (c.toNat % 16)]
  else String.singleton c

/-- JSON escaping of a string. -/
def jsonEscape (s : String) : String :=
  String.join (s.data.map jsonEscapeChar)

/-- One `"name":"value"` JSON member. -/
def jsonMember (key v : String) : String :=
  "\"" ++ key ++ "\":\"" ++ jsonEscape v ++ "\""

/-- JSON marshalling of the auth structure: members in field declaration
order, empty fields omitted (`omitempty` on every field). -/
def jsonOfAuthConfig (c : AuthConfig) : String :=
  let fields :=
    (if c.username = "" then [] else [jsonMember "username" c.username]) ++
    (if c.password = "" then [] else [jsonMember "password" c.password]) ++
    (if c.auth = "" then [] else [jsonMember "auth" c.auth]) ++
    (if c.email = "" then [] else [jsonMember "email" c.email]) ++
    (if c.serverAddress = "" then [] else [jsonMember "serveraddress" c.serverAddress]) ++
    (if c.identityToken = "" then [] else [jsonMember "identitytoken" c.identityToken]) ++
    (if c.registryToken = "" then [] else [jsonMember "registrytoken" c.registryToken])
  "\x7b" ++ String.intercalate "," fields ++ "\x7d"

/-- UTF-8 bytes of one character, as numbers below 256. -/
def utf8Bytes (c : Char) : List Nat :=
  let n := c.toNat
  if n < 128 then [n]
  else if n < 2048 then [192 + n / 64, 128 + n % 64]
  else if n < 65536 then [224 + n / 4096, 128 + n / 64 % 64, 128 + n % 64]
  else [240 + n / 262144, 128 + n / 4096 % 64, 128 + n / 64 % 64, 128 + n % 64]

/-- UTF-8 bytes of a string. -/
def strBytes (s : String) : List Nat :=
  (s.data.map utf8Bytes).flatten

/-- The URL base64 alphabet (`base64.URLEncoding`). -/
def b64Char (n : Nat) : Char :=
  "ABCDEFGHIJKLMNOPQRSTUVWXYZabcdefghijklmnopqrstuvwxyz0123456789-_".data.getD n 'A'

/-- URL base64 with padding over a byte list. -/
def base64urlEncode : List Nat → String
  | [] => ""
  | [a] => String.mk [b64Char (a / 4), b64Char (a % 4 * 16), '=', '=']
  | [a, b] => String.mk [b64Char (a / 4), b64Char (a % 4 * 16 + b / 16), b64Char (b % 16 * 4), '=']
  | a :: b :: c :: rest =>
    String.mk [b64Char (a / 4), b64Char (a % 4 * 16 + b / 16),
               b64Char (b % 16 * 4 + c / 64), b64Char (c % 64)] ++ base64urlEncode rest

/-- `authConfig.Value`: base64-URL of the JSON-marshalled auth structure.
(`json.Marshal` cannot fail on this struct, so the error path is dead.) -/
def authValue (c : AuthConfig) : String :=
  base64urlEncode (strBytes (jsonOfAuthConfig c))

/-! ### Argument parsing (`arguments`, main.go lines 246-278) -/

/-- The parsed command-line flag values. -/
structure Flags where
  username : String
  password : String
  email : String
  auth : String
  version : String
  cleanup : Bool
  registry : String
  files : String
deriving DecidableEq

/-- Result of `arguments`: either usage printed and `os.Exit(1)`, or the
configuration tuple returned to `main`. -/
inductive ArgResult where
  | exit1
  | parsed (cfg : AuthConfig) (version : String) (fileNames : List String) (cleanup : Bool)
deriving DecidableEq

/-- `arguments`: exit when `files` or `registry` is empty; exit when the
trimmed concatenation of the three credential flags is non-empty while
some of them is empty; otherwise build the configuration and split the
file list on commas. -/
def arguments (f : Flags) : ArgResult :=
  if f.files = "" ∨ f.registry = "" then ArgResult.exit1
  else if trim (f.username ++ f.password ++ f.email) ≠ "" ∧
          (f.username = "" ∨ f.password = "" ∨ f.email = "") then ArgResult.exit1
  else ArgResult.parsed (newAuthConfig f.username f.password f.email f.auth f.registry)
         f.version (splitComma f.files) f.cleanup

/-! ### Per-file pipeline (`main`, main.go lines 306-371)

The engine calls are external; an `EngineOracle` fixes the outcome of each
call for one file: whether staging the build fails (`ImageBuild` or the
final open in `createContext`; the archive file has been created by
`tar.Create` either way), the decoded `stream` lines of the build
response, whether consuming that stream ends in a JSON decode error rather
than EOF, the per-tag outcomes of `ImagePush` and of consuming its
response, whether `ImageInspectWithRaw` fails, and which `ImageRemove`
calls succeed. -/

/-- Outcomes of the external engine calls for one file. -/
structure EngineOracle where
  buildErr : Bool
  streamLines : List String
  streamErr : Option String
  pushErr : String → Bool
  pushStreamErr : String → Bool
  inspectErr : Bool
  removeOk : String → Bool

/-- Result of the per-file pipeline.  `fatalExit` is `checkErr` printing and
`os.Exit(1)`; `panicExit` is the runtime out-of-range panic at
`ids[len(ids)-1]`; `done` reaches the end of the loop body.  `tempRemoved`
records whether `os.Remove(filename)` (main.go line 334) was executed on
that path; `inspected` records whether the inspect call succeeded and the
stat fields were populated. -/
inductive PipeResult where
  | fatalExit (tempRemoved : Bool)
  | panicExit (tempRemoved : Bool)
  | done (finalId : String) (tempRemoved : Bool) (removals : List String) (inspected : Bool)
deriving DecidableEq

/-- Whether `os.Remove(filename)` was executed on the path taken. -/
def tempRemovedOf : PipeResult → Bool
  | PipeResult.fatalExit b => b
  | PipeResult.panicExit b => b
  | PipeResult.done _ b _ _ => b

/-- The push loop: each tag in order is pushed and its response stream
consumed; the first failing call is returned (it is fatal in `main`). -/
def pushTags (e : EngineOracle) : List String → Option String
  | [] => none
  | t :: rest =>
    if e.pushErr t then some t
    else if e.pushStreamErr t then some t
    else pushTags e rest

/-- `ids[len(ids)-1]` for a non-empty list. -/
def lastId (ids : List String) : String := ids.getD (ids.length - 1) ""

/-- The per-file pipeline of `main`: tags, build staging, stream
consumption, final-id indexing, context deletion, pushes, inspect
(failure ignored), optional cleanup. -/
def runFile (cleanup : Bool) (e : EngineOracle) (fileLines : List String) : PipeResult :=
  match tagsFor fileLines with
  | Except.error _ => PipeResult.fatalExit false
  | Except.ok tags =>
    if e.buildErr then PipeResult.fatalExit false
    else
      let ids := writeResponseIds e.streamLines
      match e.streamErr with
      | some _ => PipeResult.fatalExit false
      | none =>
        if ids = [] then PipeResult.panicExit false
        else
          -- `os.Remove(filename)` runs here: every later path has the
          -- context archive removed.
          match pushTags e tags with
          | some _ => PipeResult.fatalExit true
          | none =>
            let removals := if cleanup then (cleanupRun e.removeOk ids).1 else []
            PipeResult.done (lastId ids) true removals (!e.inspectErr)

/-- Result of the whole program. -/
inductive MainResult where
  | usageExit
  | clientFatal
  | ran (results : List PipeResult)
deriving DecidableEq

/-- The file loop of `main`: a fatal or panicking file stops the process,
a completed file lets the loop continue. -/
def runFiles (cleanup : Bool) (content : String → List String) (orc : String → EngineOracle) : List String → List PipeResult
  | [] => []
  | f :: rest =>
    let r := runFile cleanup (orc f) (content f)
    match r with
    | PipeResult.done _ _ _ _ => r :: runFiles cleanup content orc rest
    | _ => [r]

/-- `main`: parse arguments (possibly exiting), create the client
(`clientErr` true means `newClient` failed, a fatal error), then run the
per-file pipeline over the file names. -/
def mainRun (clientErr : Bool) (content : String → List String) (orc : String → EngineOracle) (f : Flags) : MainResult :=
  match arguments f with
  | ArgResult.exit1 => MainResult.usageExit
  | ArgResult.parsed _ _ fileNames cleanup =>
    if clientErr then MainResult.clientFatal
    else MainResult.ran (runFiles cleanup content orc fileNames)

/-! ### Concrete scenarios

Example oracles and flags used to evaluate the pipeline at concrete
inputs. -/

/-- A fully successful engine run with one intermediate image. -/
def egHappyOracle : EngineOracle :=
  { buildErr := false, streamLines := [" ---> abcdefabcdef"], streamErr := none,
    pushErr := fun _ => false, pushStreamErr := fun _ => false,
    inspectErr := false, removeOk := fun _ => true }

/-- A successful engine run with two intermediate images. -/
def egStreamOracle : EngineOracle :=
  { egHappyOracle with streamLines := [" ---> 111111111111", "Step 2", " ---> 222222222222"] }

/-- A build whose stream carries no 12-character marker line. -/
def egPanicOracle : EngineOracle :=
  { egHappyOracle with streamLines := ["Step 1/2 : FROM alpine", " ---> Running in a430b8c0596e"] }

/-- A run where the final inspect call fails and every removal fails. -/
def egInspectFailOracle : EngineOracle :=
  { egHappyOracle with
    streamLines := [" ---> 111111111111"]
    inspectErr := true
    removeOk := fun _ => false }

/-- A run where consuming the build stream ends in a decode error. -/
def egStreamErrOracle : EngineOracle :=
  { egHappyOracle with streamLines := [" ---> 111111111111"], streamErr := some "invalid json" }

/-- Flags with a whitespace-only username and no password or email. -/
def egFlagsWs : Flags :=
  { username := " ", password := "", email := "", auth := "", version := "1.28",
    cleanup := true, registry := "r", files := "f" }

/-! ### Helper lemmas -/

/-- The failures logged by the cleanup loop are exactly the attempted ids
whose removal call failed. -/
lemma cleanupFrom_snd (rm : String → Bool) (ids : List String) :
    ∀ i, (cleanupFrom rm ids i).2 = List.filter (fun x => !(rm x)) (cleanupFrom rm ids i).1 := by
  intro i
  induction i with
  | zero => rfl
  | succ i ih =>
    simp only [cleanupFrom]
    rw [ih, List.filter_cons]
    cases h : rm (ids.getD (i + 1) "") <;> simp [h]

/-- The ids attempted by the cleanup loop from index `i` down to 1, for
`i` inside the list. -/
lemma cleanupFrom_fst (rm : String → Bool) (ids : List String) :
    ∀ i, i < ids.length → (cleanupFrom rm ids i).1 = ((ids.take (i + 1)).drop 1).reverse := by
  intro i
  induction i with
  | zero =>
    intro h
    cases ids with
    | nil => simp at h
    | cons a t => simp [cleanupFrom]
  | succ i ih =>
    intro h
    have hi : i < ids.length := Nat.lt_of_succ_lt h
    have hgt : ids.getD (i + 1) "" = ids[i + 1] := by
      simp [List.getD_eq_getElem?_getD, List.getElem?_eq_getElem h]
    have htake : ids.take (i + 1 + 1) = ids.take (i + 1) ++ [ids[i + 1]] := by
      rw [List.take_succ, List.getElem?_eq_getElem h]
      rfl
    have hlen : 1 ≤ (ids.take (i + 1)).length := by
      rw [List.length_take]
      omega
    simp only [cleanupFrom]
    rw [ih hi, hgt, htake, List.drop_append_of_le_length hlen]
    simp

/-- The whole cleanup pass attempts exactly the tail of the id list in
reverse order, whatever the removal outcomes are. -/
lemma cleanupRun_fst (rm : String → Bool) (ids : List String) :
    (cleanupRun rm ids).1 = (ids.drop 1).reverse := by
  cases ids with
  | nil => rfl
  | cons a t =>
    have h : (a :: t).length - 1 < (a :: t).length := by simp
    rw [cleanupRun, cleanupFrom_fst rm (a :: t) _ h]
    have : (a :: t).length - 1 + 1 = (a :: t).length := by simp
    rw [this, List.take_length]

/-- Leading blank or bare-comment lines are skipped while no tag has been
collected. -/
lemma tagsLoop_skip (ls : List String) :
    ∀ blanks, (∀ b ∈ blanks, trim b = "" ∨ trim b = "#") →
      tagsLoop [] (blanks ++ ls) = tagsLoop [] ls := by
  intro blanks
  induction blanks with
  | nil => intro _; rfl
  | cons b bs ih =>
    intro h
    have hb : trim b = "" ∨ trim b = "#" := h b (by simp)
    have := ih (fun x hx => h x (by simp [hx]))
    simp only [List.cons_append, tagsLoop, hb]
    simpa [hb] using this

/-- Non-terminator lines each append their stripped, trimmed remainder to
the accumulated tags, whether or not they carry the comment marker. -/
lemma tagsLoop_collect (ls : List String) :
    ∀ comments acc, (∀ c ∈ comments, trim c ≠ "" ∧ trim c ≠ "#") →
      tagsLoop acc (comments ++ ls) = tagsLoop (acc ++ comments.map tagOfLine) ls := by
  intro comments
  induction comments with
  | nil => intro acc _; simp
  | cons c cs ih =>
    intro acc h
    obtain ⟨h1, h2⟩ := h c (by simp)
    have hrec := ih (acc ++ [trim (strDrop (trim c) 1)]) (fun x hx => h x (by simp [hx]))
    simp only [List.cons_append, tagsLoop, List.append_eq]
    rw [if_neg (by simp [h1, h2]), hrec]
    simp [tagOfLine, List.append_assoc]

/-- A blank or bare-comment line terminates the scan once some tag has
been collected. -/
lemma tagsLoop_stop (acc : List String) (t : String) (rest : List String)
    (hacc : acc ≠ []) (ht : trim t = "" ∨ trim t = "#") :
    tagsLoop acc (t :: rest) = acc := by
  cases acc with
  | nil => exact absurd rfl hacc
  | cons a as => simp [tagsLoop, ht]

/-- The scanner loop never discards collected tags: the result extends the
accumulator. -/
lemma tagsLoop_grows (ls : List String) :
    ∀ acc, ∃ s, tagsLoop acc ls = acc ++ s := by
  induction ls with
  | nil => intro acc; exact ⟨[], by simp [tagsLoop]⟩
  | cons l rest ih =>
    intro acc
    by_cases hc : trim l = "" ∨ trim l = "#"
    · cases acc with
      | nil =>
        obtain ⟨s, hs⟩ := ih []
        exact ⟨s, by simpa [tagsLoop, hc] using hs⟩
      | cons a as => exact ⟨[], by simp [tagsLoop, hc]⟩
    · obtain ⟨s, hs⟩ := ih (acc ++ [trim (strDrop (trim l) 1)])
      refine ⟨trim (strDrop (trim l) 1) :: s, ?_⟩
      simp only [tagsLoop]
      rw [if_neg hc, hs]
      simp

/-- The scan collects nothing exactly when every line is blank or a bare
comment marker. -/
lemma tagsLoop_nil_iff (ls : List String) :
    tagsLoop [] ls = [] ↔ ∀ l ∈ ls, trim l = "" ∨ trim l = "#" := by
  induction ls with
  | nil => simp [tagsLoop]
  | cons l rest ih =>
    by_cases hc : trim l = "" ∨ trim l = "#"
    · have hstep : tagsLoop [] (l :: rest) = tagsLoop [] rest := by
        simp [tagsLoop, hc]
      rw [hstep, ih]
      constructor
      · intro h x hx
        rcases List.mem_cons.mp hx with h1 | h2
        · subst h1; exact hc
        · exact h x h2
      · intro h x hx
        exact h x (by simp [hx])
    · obtain ⟨s, hs⟩ := tagsLoop_grows rest [trim (strDrop (trim l) 1)]
      have hstep : tagsLoop [] (l :: rest) = trim (strDrop (trim l) 1) :: s := by
        simp only [tagsLoop]
        rw [if_neg hc]
        simpa using hs
      rw [hstep]
      constructor
      · intro h
        exact absurd h (by simp)
      · intro h
        exact absurd (h l (by simp)) hc

/-- A string with the comment marker in front is neither empty nor equal
to the bare marker once it has more than the marker. -/
lemma hasPre_hash_ne_empty {s : String} (h : hasPre s "#" = true) : s ≠ "" := by
  intro he
  subst he
  exact absurd h (by decide)

/-- The ids contributed by one line agree with the declarative
per-line id. -/
lemma idsOfLine_eq_spec (s : String) : idsOfLine s = (specStreamId s).toList := by
  unfold idsOfLine specStreamId
  by_cases h1 : hasPre s buildMarker = true
  · by_cases h2 : strLength (trim (strDrop s (strLength buildMarker))) = 12 <;>
      simp [h1, h2]
  · simp [h1]

/-! ### Claim theorems -/

/-- C1: With intermediate identifiers `ids` of length n, the cleanup pass
issues remove requests for `ids[n-1], ..., ids[1]` in exactly that order
and never visits index 0; the attempted sequence is the same whatever the
removal outcomes are (failures are only logged), and the logged failures
are exactly the attempted ids whose removal call failed.  In particular
`[id0, id1, id2]` with every removal failing still attempts `id2` then
`id1` and never `id0`. -/
theorem cleanup_reverse_skips_first :
    (∀ (rm : String → Bool) (ids : List String),
      (cleanupRun rm ids).1 = (ids.drop 1).reverse ∧
      (cleanupRun rm ids).2 = List.filter (fun x => !(rm x)) ((ids.drop 1).reverse)) ∧
    cleanupRun (fun _ => false) ["id0", "id1", "id2"] = (["id2", "id1"], ["id2", "id1"]) := by
  refine ⟨fun rm ids => ⟨cleanupRun_fst rm ids, ?_⟩, by decide⟩
  rw [← cleanupRun_fst rm ids]
  exact cleanupFrom_snd rm ids (ids.length - 1)

/-- C2: The stream parser records, in stream order, exactly the trimmed
text after the marker of each decoded line when that text is 12
characters long; a marker line with a 12-character remainder qualifies
while a container-run line does not; and the last collected identifier is
the final built image id of the per-file pipeline. -/
theorem stream_id_collection :
    (∀ lines, writeResponseIds lines = lines.filterMap specStreamId) ∧
    writeResponseIds [" ---> a1b2c3d4e5f6", " ---> Running in a430b8c0596e"] = ["a1b2c3d4e5f6"] ∧
    runFile true egStreamOracle ["# myimg", ""] =
      PipeResult.done "222222222222" true ["222222222222"] true := by
  refine ⟨fun lines => ?_, by decide, by decide⟩
  induction lines with
  | nil => rfl
  | cons s rest ih =>
    simp only [writeResponseIds, writeResponseGo] at *
    rw [idsOfLine_eq_spec, List.filterMap_cons]
    cases specStreamId s <;> simp [ih]

/-- C3: For a file header made of blank lines, then at least one comment
line, then a blank or bare-comment terminator, tag extraction returns
exactly the comment lines with the marker character stripped and the
remainder trimmed, in file order, ignoring everything after the
terminator. -/
theorem header_tags_extracted
    (blanks comments : List String) (term : String) (rest : List String)
    (hb : ∀ b ∈ blanks, trim b = "")
    (hne : comments ≠ [])
    (hc : ∀ c ∈ comments, hasPre (trim c) "#" = true ∧ trim c ≠ "#")
    (ht : trim term = "" ∨ trim term = "#") :
    tagsFor (blanks ++ (comments ++ term :: rest)) =
      Except.ok (comments.map tagOfLine) := by
  have hc2 : ∀ c ∈ comments, trim c ≠ "" ∧ trim c ≠ "#" := fun c hm =>
    ⟨hasPre_hash_ne_empty (hc c hm).1, (hc c hm).2⟩
  have hmap : comments.map tagOfLine ≠ [] := by
    simpa using hne
  unfold tagsFor
  rw [tagsLoop_skip _ blanks (fun b h2 => Or.inl (hb b h2)),
    tagsLoop_collect _ comments [] hc2, List.nil_append,
    tagsLoop_stop _ term rest hmap ht, if_neg hmap]

/-- Witness for C3 at a concrete header. -/
theorem header_tags_extracted_w :
    tagsFor (["", "  "] ++ (["# one", "#two"] ++ "" :: ["FROM x"])) =
      Except.ok (["# one", "#two"].map tagOfLine) :=
  header_tags_extracted ["", "  "] ["# one", "#two"] "" ["FROM x"]
    (by decide) (by decide) (by decide) (by decide)

/-- C4 counterexample: a file with zero leading comment lines (its only
line does not carry the comment marker) still yields a non-empty tag
list, so extraction does not fail with the no-tags error. -/
theorem noncomment_line_yields_tag_cex :
    hasPre (trim "FROM alpine") "#" = false ∧
    tagsFor ["FROM alpine"] = Except.ok ["ROM alpine"] ∧
    tagsFor ["FROM alpine"] ≠ Except.error TagsError.noTagsFound := by
  refine ⟨by decide, rfl, ?_⟩
  rw [show tagsFor ["FROM alpine"] = Except.ok ["ROM alpine"] from rfl]
  simp

/-- C4 amended: extraction fails with the no-tags error exactly when
every line of the file trims to blank or to the bare comment marker; a
file with zero comment lines but some other non-blank line instead
mis-parses that line as a tag. -/
theorem no_tags_error_iff_all_blank (lines : List String) :
    tagsFor lines = Except.error TagsError.noTagsFound ↔
      ∀ l ∈ lines, trim l = "" ∨ trim l = "#" := by
  rw [← tagsLoop_nil_iff]
  cases heq : tagsLoop [] lines with
  | nil => simp [tagsFor, heq]
  | cons t ts => simp [tagsFor, heq]

/-- C5 counterexample: an engine-inspect failure after the pushes is not
fatal; the pipeline still completes (the inspect error is silently
ignored, with the stat fields left unpopulated). -/
theorem inspect_failure_nonfatal_cex :
    egInspectFailOracle.inspectErr = true ∧
    runFile true egInspectFailOracle ["# t", ""] =
      PipeResult.done "111111111111" true [] false := by
  exact ⟨rfl, by decide⟩

/-- C5 amended: tag-extraction, build-staging, stream-consumption and push
errors are each fatal, while neither an inspect failure nor any removal
failure prevents the pipeline from completing: with those calls the only
fallible ones, the run always reaches `done`. -/
theorem pipeline_error_fatality :
    ∀ (cl : Bool) (e : EngineOracle) (fl : List String),
      (tagsFor fl = Except.error TagsError.noTagsFound →
        runFile cl e fl = PipeResult.fatalExit false) ∧
      (∀ tags, tagsFor fl = Except.ok tags → e.buildErr = true →
        runFile cl e fl = PipeResult.fatalExit false) ∧
      (∀ tags msg, tagsFor fl = Except.ok tags → e.buildErr = false →
        e.streamErr = some msg → runFile cl e fl = PipeResult.fatalExit false) ∧
      (∀ tags t, tagsFor fl = Except.ok tags → e.buildErr = false →
        e.streamErr = none → writeResponseIds e.streamLines ≠ [] →
        pushTags e tags = some t → runFile cl e fl = PipeResult.fatalExit true) ∧
      (∀ tags, tagsFor fl = Except.ok tags → e.buildErr = false →
        e.streamErr = none → writeResponseIds e.streamLines ≠ [] →
        pushTags e tags = none →
        runFile cl e fl = PipeResult.done (lastId (writeResponseIds e.streamLines)) true
          (if cl then (cleanupRun e.removeOk (writeResponseIds e.streamLines)).1 else [])
          (!e.inspectErr)) := by
  intro cl e fl
  refine ⟨?_, ?_, ?_, ?_, ?_⟩
  · intro h1
    simp [runFile, h1]
  · intro tags h1 h2
    simp [runFile, h1, h2]
  · intro tags msg h1 h2 h3
    simp [runFile, h1, h2, h3]
  · intro tags t h1 h2 h3 h4 h5
    simp [runFile, h1, h2, h3, h4, h5]
  · intro tags h1 h2 h3 h4 h5
    simp [runFile, h1, h2, h3, h4, h5]

/-- Witness for C5 at a run whose inspect and removal calls all fail. -/
theorem pipeline_error_fatality_w :
    runFile true egInspectFailOracle ["# t", ""] =
      PipeResult.done (lastId (writeResponseIds egInspectFailOracle.streamLines)) true
        (if true then
          (cleanupRun egInspectFailOracle.removeOk
            (writeResponseIds egInspectFailOracle.streamLines)).1
        else [])
        (!egInspectFailOracle.inspectErr) :=
  (pipeline_error_fatality true egInspectFailOracle ["# t", ""]).2.2.2.2 ["t"]
    rfl rfl rfl (by decide) rfl

/-- C6 counterexample: when consuming the build stream fails, the process
exits before `os.Remove(filename)` runs, so the temporary context archive
is not deleted on that exit path. -/
theorem temp_file_left_on_stream_error_cex :
    egStreamErrOracle.streamErr = some "invalid json" ∧
    runFile true egStreamErrOracle ["# t", ""] = PipeResult.fatalExit false ∧
    tempRemovedOf (runFile true egStreamErrOracle ["# t", ""]) = false := by
  exact ⟨rfl, by decide, by decide⟩

/-- C6 amended: the temporary context archive is deleted only on the path
where the build stream is consumed successfully and at least one
identifier was collected; on a build-staging or stream-consumption error
(and on the empty-identifier panic) the process stops without deleting
it, while every later path — push failure included — has it deleted. -/
theorem temp_file_deletion_paths :
    ∀ (cl : Bool) (e : EngineOracle) (fl : List String) (tags : List String),
      (tagsFor fl = Except.ok tags → e.buildErr = true →
        tempRemovedOf (runFile cl e fl) = false) ∧
      (∀ msg, tagsFor fl = Except.ok tags → e.buildErr = false →
        e.streamErr = some msg → tempRemovedOf (runFile cl e fl) = false) ∧
      (tagsFor fl = Except.ok tags → e.buildErr = false → e.streamErr = none →
        writeResponseIds e.streamLines = [] →
        tempRemovedOf (runFile cl e fl) = false) ∧
      (tagsFor fl = Except.ok tags → e.buildErr = false → e.streamErr = none →
        writeResponseIds e.streamLines ≠ [] →
        tempRemovedOf (runFile cl e fl) = true) := by
  intro cl e fl tags
  refine ⟨?_, ?_, ?_, ?_⟩
  · intro h1 h2
    simp [runFile, h1, h2, tempRemovedOf]
  · intro msg h1 h2 h3
    simp [runFile, h1, h2, h3, tempRemovedOf]
  · intro h1 h2 h3 h4
    simp [runFile, h1, h2, h3, h4, tempRemovedOf]
  · intro h1 h2 h3 h4
    rcases hp : pushTags e tags with _ | t
    · simp [runFile, h1, h2, h3, h4, hp, tempRemovedOf]
    · simp [runFile, h1, h2, h3, h4, hp, tempRemovedOf]

/-- Witness for C6 on the fully successful run. -/
theorem temp_file_deletion_paths_w :
    tempRemovedOf (runFile true egHappyOracle ["# t", ""]) = true :=
  (temp_file_deletion_paths true egHappyOracle ["# t", ""] ["t"]).2.2.2
    rfl rfl rfl (by decide)

/-- C7: when the build stream carries no qualifying marker line, the
parser returns an empty identifier list and the pipeline hits the
out-of-range indexing at `ids[len(ids)-1]` — a runtime panic rather than
a reported error, and before the context archive is deleted. -/
theorem empty_ids_panic :
    (∀ (cl : Bool) (e : EngineOracle) (fl tags : List String),
      tagsFor fl = Except.ok tags → e.buildErr = false → e.streamErr = none →
      writeResponseIds e.streamLines = [] →
      runFile cl e fl = PipeResult.panicExit false) ∧
    writeResponseIds egPanicOracle.streamLines = [] := by
  refine ⟨?_, by decide⟩
  intro cl e fl tags h1 h2 h3 h4
  simp [runFile, h1, h2, h3, h4]

/-- Witness for C7 at a stream holding only a step line and a
container-run line. -/
theorem empty_ids_panic_w :
    runFile true egPanicOracle ["# t", ""] = PipeResult.panicExit false :=
  empty_ids_panic.1 true egPanicOracle ["# t", ""] ["t"] rfl rfl rfl rfl

/-- C8 counterexample: a whitespace-only username with empty password and
email is a partially-set credential triple, yet the program does not
exit: the validation trims the concatenation of the three flags, finds it
empty, and proceeds all the way through a build. -/
theorem whitespace_credential_cex :
    egFlagsWs.username ≠ "" ∧ egFlagsWs.password = "" ∧ egFlagsWs.email = "" ∧
    mainRun false (fun _ => ["#tag1", ""]) (fun _ => egHappyOracle) egFlagsWs =
      MainResult.ran [PipeResult.done "abcdefabcdef" true [] true] := by
  exact ⟨by decide, rfl, rfl, by decide⟩

/-- C8 amended: an empty files or registry flag exits with usage before
any build, and so does a credential triple whose trimmed concatenation is
non-empty while some flag is the empty string; a credential flag holding
only whitespace (with the others empty) slips through the check. -/
theorem flag_validation_exits :
    ∀ (f : Flags) (clientErr : Bool) (content : String → List String)
      (orc : String → EngineOracle),
      (f.files = "" ∨ f.registry = "" →
        mainRun clientErr content orc f = MainResult.usageExit) ∧
      (trim (f.username ++ f.password ++ f.email) ≠ "" →
        f.username = "" ∨ f.password = "" ∨ f.email = "" →
        mainRun clientErr content orc f = MainResult.usageExit) := by
  intro f ce ct orc
  constructor
  · intro h
    simp [mainRun, arguments, h]
  · intro h1 h2
    by_cases h : f.files = "" ∨ f.registry = ""
    · simp [mainRun, arguments, h]
    · simp [mainRun, arguments, h, h1, h2]

/-- Witness for C8 at a set username with empty password and email. -/
theorem flag_validation_exits_w :
    mainRun false (fun _ => []) (fun _ => egHappyOracle)
      { username := "sam", password := "", email := "", auth := "", version := "1.28",
        cleanup := true, registry := "r", files := "f" } = MainResult.usageExit :=
  (flag_validation_exits
    { username := "sam", password := "", email := "", auth := "", version := "1.28",
      cleanup := true, registry := "r", files := "f" }
    false (fun _ => []) (fun _ => egHappyOracle)).2 (by decide) (by decide)

/-- C9: the encoded credential string is a function of the five inputs
alone — equal username, password, email, auth token and registry address
always produce the identical base64-URL encoding of the JSON-marshalled
auth structure. -/
theorem auth_encoding_deterministic
    (u1 p1 e1 a1 r1 u2 p2 e2 a2 r2 : String)
    (hu : u1 = u2) (hp : p1 = p2) (he : e1 = e2) (ha : a1 = a2) (hr : r1 = r2) :
    authValue (newAuthConfig u1 p1 e1 a1 r1) = authValue (newAuthConfig u2 p2 e2 a2 r2) := by
  subst hu
  subst hp
  subst he
  subst ha
  subst hr
  rfl

/-- Witness for C9 at concrete credentials, with the concrete encoded
value. -/
theorem auth_encoding_deterministic_w :
    authValue (newAuthConfig "sam" "s3cret" "" "" "r") =
        authValue (newAuthConfig "sam" "s3cret" "" "" "r") ∧
    authValue (newAuthConfig "sam" "s3cret" "" "" "r") =
      "eyJ1c2VybmFtZSI6InNhbSIsInBhc3N3b3JkIjoiczNjcmV0Iiwic2VydmVyYWRkcmVzcyI6InIifQ==" :=
  ⟨auth_encoding_deterministic "sam" "s3cret" "" "" "r" "sam" "s3cret" "" "" "r"
      rfl rfl rfl rfl rfl, by decide⟩

/-- C10: the tag extractor never checks the comment marker — every line
that trims to a non-blank, non-bare-marker string and is encountered
during the scan (after any leading blank or bare-marker lines and any
earlier collected lines, before a terminator) contributes its first
character stripped and the remainder trimmed as a tag, whether or not it
begins with the marker; so a file whose first non-blank line is a plain
instruction line mis-parses it as a tag. -/
theorem tag_marker_unverified :
    (∀ (blanks pre : List String) (l : String) (ls : List String),
      (∀ b ∈ blanks, trim b = "" ∨ trim b = "#") →
      (∀ p ∈ pre, trim p ≠ "" ∧ trim p ≠ "#") →
      trim l ≠ "" → trim l ≠ "#" →
      ∃ more, tagsFor (blanks ++ (pre ++ l :: ls)) =
        Except.ok (pre.map tagOfLine ++ tagOfLine l :: more)) ∧
    tagsFor ["FROM alpine"] = Except.ok ["ROM alpine"] ∧
    tagsFor ["", "FROM alpine"] = Except.ok ["ROM alpine"] ∧
    tagsFor ["#a", "FROM x"] = Except.ok ["a", "ROM x"] := by
  refine ⟨?_, rfl, rfl, rfl⟩
  intro blanks pre l ls hb hp h1 h2
  obtain ⟨s, hs⟩ := tagsLoop_grows ls (pre.map tagOfLine ++ [trim (strDrop (trim l) 1)])
  refine ⟨s, ?_⟩
  unfold tagsFor
  have hstep : tagsLoop [] (blanks ++ (pre ++ l :: ls)) =
      pre.map tagOfLine ++ tagOfLine l :: s := by
    rw [tagsLoop_skip _ blanks hb, tagsLoop_collect _ pre [] hp, List.nil_append]
    simp only [tagsLoop]
    rw [if_neg (by simp [h1, h2]), hs]
    simp [tagOfLine]
  rw [hstep, if_neg (by simp)]

/-- Witness for C10 at a plain instruction line that follows a blank
line, a bare marker line and an earlier comment line. -/
theorem tag_marker_unverified_w :
    ∃ more, tagsFor (["", "#"] ++ (["#a"] ++ "FROM x" :: [])) =
      Except.ok (["#a"].map tagOfLine ++ tagOfLine "FROM x" :: more) :=
  tag_marker_unverified.1 ["", "#"] ["#a"] "FROM x" []
    (by decide) (by decide) (by decide) (by decide)

end Builder
